import Mathlib

/-!
Verification development for the cupple auto-documentation core.

Embedded source:
- `AutodocController` from src/tools/autodoc.ts: per-path change accumulation,
  debounce timers, cooldown, dispatch to the documentation generator.
- `FileWatcher` from src/tools/autodoc-guide.md (lines 253-476): notification
  classification and the positional line-diff `calculateLineChanges`.

Strings are modelled as Lean `String` (lists of characters); times are natural
number milliseconds, with JS subtraction in cooldown checks carried out over
`Int`; JS `Map` objects are association lists with replace-on-set semantics.
-/

namespace Cupple

/-! ### Character-list string utilities (JS string operations) -/

/-- JS `String.prototype.startsWith`, needle-first over character lists. -/
def chHasPre : List Char → List Char → Bool
  | [], _ => true
  | _ :: _, [] => false
  | a :: as, b :: bs => a == b && chHasPre as bs

/-- JS `String.prototype.includes` over character lists. -/
def chHasSub (needle : List Char) : List Char → Bool
  | [] => needle.isEmpty
  | l@(_ :: t) => chHasPre needle l || chHasSub needle t

/-- JS `haystack.includes(needle)` on strings. -/
def strIncl (hay sub : String) : Bool := chHasSub sub.data hay.data

/-- JS `String.prototype.endsWith` on strings. -/
def strEnds (hay suf : String) : Bool := chHasPre suf.data.reverse hay.data.reverse

/-- JS `String.prototype.startsWith` on strings. -/
def strStarts (hay pre : String) : Bool := chHasPre pre.data hay.data

/-- The regex `\.[^.]+$` of autodoc.ts: the final extension of a path,
including the dot, provided at least one non-dot character follows the
last dot. -/
def extAfter : List Char → Option (List Char)
  | [] => none
  | c :: rest =>
    match extAfter rest with
    | some e => some e
    | none =>
      if c == '.' && !rest.isEmpty && rest.all (fun d => d != '.') then
        some (c :: rest)
      else
        none

/-- Extension extraction on strings, as in `filePath.match(/\.[^.]+$/)`. -/
def getExtMatch (s : String) : Option String := (extAfter s.data).map (fun l => ⟨l⟩)

/-! ### Association-list model of JS `Map` -/

/-- JS `Map.prototype.get`. -/
def mget {α : Type} (k : String) : List (String × α) → Option α
  | [] => none
  | (k1, v) :: r => if k1 = k then some v else mget k r

/-- JS `Map.prototype.delete` (also models a timer handle being cleared). -/
def mdel {α : Type} (k : String) : List (String × α) → List (String × α)
  | [] => []
  | kv :: r => if kv.1 = k then mdel k r else kv :: mdel k r

/-- JS `Map.prototype.set`: replace any binding of `k` by the new one. -/
def mset {α : Type} (k : String) (v : α) (l : List (String × α)) : List (String × α) :=
  (k, v) :: mdel k l

/-! ### Line diff engine: `FileWatcher.calculateLineChanges` -/

/-- JS `content.split('\n')` over character lists: always at least one
(line) element, the empty string splitting to one empty line. -/
def splitNl : List Char → List (List Char)
  | [] => [[]]
  | ch :: rest =>
    if ch = '\n' then [] :: splitNl rest
    else
      match splitNl rest with
      | [] => [[ch]]
      | h :: tl => (ch :: h) :: tl

/-- Result record of `calculateLineChanges`. -/
structure LineDiff where
  total : Nat
  added : Nat
  deleted : Nat
deriving DecidableEq

/-- The `for (let i = 0; i < minLength; i++)` loop of `calculateLineChanges`:
count positions up to the shorter length where the two lines differ. -/
def countModified : List (List Char) → List (List Char) → Nat
  | a :: as, b :: bs => (if a = b then 0 else 1) + countModified as bs
  | _, _ => 0

/-- `FileWatcher.calculateLineChanges` (autodoc-guide.md lines 425-465):
positional line diff of two text snapshots. -/
def calculateLineChanges (oldContent newContent : String) : LineDiff :=
  let oldLines := splitNl oldContent.data
  let newLines := splitNl newContent.data
  let oldLength := oldLines.length
  let newLength := newLines.length
  let added := newLength - oldLength
  let deleted := oldLength - newLength
  let modified := countModified oldLines newLines
  ⟨modified + added + deleted, added, deleted⟩

/-- Spec-side count of differing indices, written from the spec sentence
of claim C4: the number of indices below both lengths where the line
arrays disagree. -/
def specModifiedCount (oldContent newContent : String) : Nat :=
  (((splitNl oldContent.data).zip (splitNl newContent.data)).filter
    (fun pr => decide (pr.1 ≠ pr.2))).length

/-! ### Controller configuration (autodoc.ts) -/

/-- Documentation detail level from settings.ts. -/
inductive DocDetailLevel
  | brief
  | standard
  | comprehensive
deriving DecidableEq

/-- Resolved controller configuration: the fields of `AutodocController`
after its constructor ran (`cooldownMs`, `debounceMs` and
`extensionDetailMap` already resolved; `excludeDirs` kept raw because
`shouldExclude` re-reads `this.config.excludeDirs` on every call). -/
structure Ctrl where
  changeThreshold : Nat
  generateOnCreate : Bool
  excludeDirs : Option (List String)
  extensionDetailMap : List (String × DocDetailLevel)
  cooldownMs : Nat
  debounceMs : Nat
deriving DecidableEq

/-- Fallback exclusion list hard-coded in `shouldExclude`. -/
def defaultExcludeDirs : List String :=
  [r"node_modules", r"dist", r".cupple", r".git", r"docs"]

/-- String constants used in application position below. -/
def slashStr : String := "/"

/-- Backslash separator for the Windows-style exclusion check. -/
def bslashStr : String := "\\"

/-- Suffix checked by the markdown filter in `shouldExclude`. -/
def mdSuffix : String := ".md"

/-- Default error text of the catch branch in `generateDocumentation`. -/
def unknownErrorMsg : String := "Unknown error"

/-- The excluded-directory test of `shouldExclude`: a path-separator-aware
substring match `/dir/` or `\dir\` against each excluded directory. -/
def underExcludedDir (c : Ctrl) (filePath : String) : Bool :=
  (c.excludeDirs.getD defaultExcludeDirs).any
    (fun d => strIncl filePath (slashStr ++ d ++ slashStr)
      || strIncl filePath (bslashStr ++ d ++ bslashStr))

/-- `AutodocController.shouldExclude` (autodoc.ts lines 225-258). -/
def shouldExclude (c : Ctrl) (filePath : String) : Bool :=
  if underExcludedDir c filePath then true
  else if strEnds filePath mdSuffix then true
  else
    match getExtMatch filePath with
    | none => true
    | some ext => !(mget ext c.extensionDetailMap).isSome

/-! ### Controller state and events -/

/-- Mutable per-path maps of `AutodocController`. Timer handles are
modelled by their fire deadline; a cleared handle is removed, since a
cleared timer never fires and its map entry is otherwise unobservable. -/
structure CState where
  fileChanges : List (String × Nat)
  documentedFiles : List String
  lastDocumentedTime : List (String × Nat)
  pendingTimer : List (String × Nat)
deriving DecidableEq

/-- Fresh controller state: all maps empty. -/
def emptyState : CState := ⟨[], [], [], []⟩

/-- Event type tags of `FileSystemEvent`. -/
inductive FSEventType
  | file_created
  | file_modified
  | directory_created
deriving DecidableEq

/-- `FileSystemEvent` from the watcher. -/
structure FSEvent where
  type : FSEventType
  name : String
  path : String
  linesChanged : Option Nat
  linesAdded : Option Nat
  linesDeleted : Option Nat
deriving DecidableEq

/-- Which code path invoked `generateDocumentation`. -/
inductive DispatchSource
  | timerFire
  | onCreate
  | manual
deriving DecidableEq

/-- One call of `generateDocumentation`: path, schedule time, the
`linesChanged` argument, and the invoking code path. -/
structure Dispatch where
  path : String
  time : Nat
  amount : Nat
  source : DispatchSource
deriving DecidableEq

/-- `AutodocController.isInCooldown` (autodoc.ts lines 172-179), at clock
value `now`. JS number subtraction is carried out over `Int`. -/
def isInCooldown (c : Ctrl) (now : Nat) (filePath : String) (s : CState) : Bool :=
  match mget filePath s.lastDocumentedTime with
  | none => false
  | some lastTime => decide ((now : Int) - (lastTime : Int) < (c.cooldownMs : Int))

/-! ### Dispatch boundary: `generateDocumentation` -/

/-- Result record of `updateMarkdownForFile` (updateMD.ts). -/
structure UpdateMDResult where
  success : Bool
  outputPath : Option String
  error : Option String
deriving DecidableEq

/-- Behaviour of the external collaborator `updateMarkdownForFile`: either
it returns a result or it throws (`some msg` for an `Error` with a
message, `none` for a non-`Error` throw). -/
inductive CollabOutcome
  | returns (r : UpdateMDResult)
  | throws (msg : Option String)
deriving DecidableEq

/-- `AutodocResult` delivered to the caller-supplied callback. -/
structure AutodocResult where
  filePath : String
  success : Bool
  outputPath : Option String
  error : Option String
deriving DecidableEq

/-- `AutodocController.generateDocumentation` (autodoc.ts lines 185-220):
given the current `documentedFiles` and the collaborator's behaviour,
produce the updated `documentedFiles` and the list of callback
invocations. The try/catch is the match on `CollabOutcome.throws`; the
function is total, so a throwing collaborator still yields a normal
return. -/
def generateDocumentation (documentedFiles : List String) (filePath : String)
    (outcome : CollabOutcome) : List String × List AutodocResult :=
  match outcome with
  | .returns r =>
    if r.success then
      (filePath :: documentedFiles, [⟨filePath, true, r.outputPath, none⟩])
    else
      (documentedFiles, [⟨filePath, false, none, r.error⟩])
  | .throws m =>
    (documentedFiles, [⟨filePath, false, none, some (m.getD unknownErrorMsg)⟩])

/-- Whether the collaborator reported success (a throw is not success). -/
def collabSuccess : CollabOutcome → Bool
  | .returns r => r.success
  | .throws _ => false

/-! ### Debounce timer callback (autodoc.ts lines 142-158)

The callback body has one `await`, splitting it in two phases: everything
up to and including the call of `generateDocumentation` (the schedule
phase), and the code after the `await` (the completion phase).
-/

/-- Schedule phase of the timer callback: remove the timer handle,
re-check the cooldown, and when clear record the generation-start
timestamp and read the accumulated total to dispatch with. Returns
`some finalChanges` when a dispatch is scheduled, `none` when the
cooldown suppressed it. `fileChanges` is not touched here. -/
def timerFireSchedule (c : Ctrl) (now : Nat) (filePath : String) (s : CState) :
    CState × Option Nat :=
  let s1 : CState := { s with pendingTimer := mdel filePath s.pendingTimer }
  if isInCooldown c now filePath s1 then (s1, none)
  else
    let s2 : CState := { s1 with lastDocumentedTime := mset filePath now s1.lastDocumentedTime }
    let finalChanges := (mget filePath s2.fileChanges).getD 0
    (s2, some finalChanges)

/-- Completion phase of the timer callback, after the awaited generation
returns: `this.fileChanges.set(event.path, 0)`. -/
def timerFireComplete (filePath : String) (s : CState) : CState :=
  { s with fileChanges := mset filePath 0 s.fileChanges }

/-! ### Event-stream semantics -/

/-- Oracle giving the collaborator's behaviour for the dispatch of a given
path at a given time. -/
def CollabOracle : Type := Nat → String → CollabOutcome

/-- The watcher callback of `createWatcherCallback` (autodoc.ts lines
98-167) handling one `FileSystemEvent` at clock value `t`. -/
def handleEvent (c : Ctrl) (g : CollabOracle) (t : Nat) (e : FSEvent) (s : CState) :
    CState × List Dispatch :=
  if e.type = FSEventType.directory_created then (s, [])
  else if shouldExclude c e.path then (s, [])
  else if e.type = FSEventType.file_created then
    if c.generateOnCreate then
      ({ s with documentedFiles := (generateDocumentation s.documentedFiles e.path (g t e.path)).1 },
        [⟨e.path, t, e.linesChanged.getD 0, DispatchSource.onCreate⟩])
    else
      match e.linesChanged with
      | some n =>
        if n ≠ 0 then
          ({ s with fileChanges := mset e.path n s.fileChanges }, [])
        else (s, [])
      | none => (s, [])
  else if e.type = FSEventType.file_modified then
    let currentChanges := (mget e.path s.fileChanges).getD 0
    let totalChanges := currentChanges + e.linesChanged.getD 0
    let s1 : CState := { s with fileChanges := mset e.path totalChanges s.fileChanges }
    if c.changeThreshold ≤ totalChanges then
      let s2 : CState := { s1 with pendingTimer := mdel e.path s1.pendingTimer }
      if isInCooldown c t e.path s2 then (s2, [])
      else
        ({ s2 with pendingTimer := mset e.path (t + c.debounceMs) s2.pendingTimer }, [])
    else (s1, [])
  else (s, [])

/-- A live debounce timer for `filePath` fires at its deadline `t`: the
schedule phase, the awaited generation, then the completion phase. A
handle absent from the map was cleared and never fires. -/
def handleFire (c : Ctrl) (g : CollabOracle) (t : Nat) (filePath : String) (s : CState) :
    CState × List Dispatch :=
  if mget filePath s.pendingTimer = some t then
    match timerFireSchedule c t filePath s with
    | (s1, some amt) =>
      let s2 : CState :=
        { s1 with documentedFiles := (generateDocumentation s1.documentedFiles filePath (g t filePath)).1 }
      (timerFireComplete filePath s2, [⟨filePath, t, amt, DispatchSource.timerFire⟩])
    | (s1, none) => (s1, [])
  else (s, [])

/-- `AutodocController.documentFile` (autodoc.ts lines 263-275): the
manual trigger. An excluded path gets a failure callback without any
`generateDocumentation` call; otherwise dispatch with the current
accumulated count, with no cooldown check, no timestamp update and no
counter reset. -/
def handleDocFile (c : Ctrl) (g : CollabOracle) (t : Nat) (filePath : String) (s : CState) :
    CState × List Dispatch :=
  if shouldExclude c filePath then (s, [])
  else
    let changes := (mget filePath s.fileChanges).getD 0
    ({ s with documentedFiles := (generateDocumentation s.documentedFiles filePath (g t filePath)).1 },
      [⟨filePath, t, changes, DispatchSource.manual⟩])

/-- One step of the controller trace: a watcher event, a timer firing, or
a manual `documentFile` call, each at a clock value. -/
inductive TStep
  | fsEvent (t : Nat) (e : FSEvent)
  | fire (t : Nat) (filePath : String)
  | docFile (t : Nat) (filePath : String)
deriving DecidableEq

/-- Apply one trace step. -/
def applyStep (c : Ctrl) (g : CollabOracle) (s : CState) : TStep → CState × List Dispatch
  | .fsEvent t e => handleEvent c g t e s
  | .fire t p => handleFire c g t p s
  | .docFile t p => handleDocFile c g t p s

/-- Run a list of trace steps, collecting every dispatch in order. -/
def runSteps (c : Ctrl) (g : CollabOracle) : List TStep → CState → CState × List Dispatch
  | [], s => (s, [])
  | st :: rest, s =>
    let r1 := applyStep c g s st
    let r2 := runSteps c g rest r1.1
    (r2.1, r1.2 ++ r2.2)

/-- A step is consistent with real timer behaviour in the given state:
an event may arrive only while every live timer deadline is still in the
future, and a timer may fire only at the deadline of a live handle. -/
def stepOK (s : CState) : TStep → Bool
  | .fsEvent t _ => s.pendingTimer.all (fun kv => decide (t < kv.2))
  | .fire t p => decide (mget p s.pendingTimer = some t)
  | .docFile _ _ => true

/-- Every step of the trace is consistent with real timer behaviour:
the trace misses no timer firing and fires no cleared timer. -/
def tracked (c : Ctrl) (g : CollabOracle) (s : CState) : List TStep → Bool
  | [] => true
  | st :: rest => stepOK s st && tracked c g (applyStep c g s st).1 rest

/-- Schedule times of the timer-driven dispatches for one path, in trace
order. -/
def timerTimes (p : String) (log : List Dispatch) : List Nat :=
  (log.filter (fun d => decide (d.source = DispatchSource.timerFire) && decide (d.path = p))).map
    (fun d => d.time)

/-- Total `linesChanged` over a list of (time, amount) modification
events. -/
def amtSum : List (Nat × Nat) → Nat
  | [] => 0
  | x :: r => x.2 + amtSum r

/-- A `file_modified` watcher event for path `p` from a (time, amount)
pair. -/
def mkMod (p : String) (ta : Nat × Nat) : TStep :=
  .fsEvent ta.1 ⟨FSEventType.file_modified, p, p, some ta.2, none, none⟩

/-- Consecutive events arrive less than `db` milliseconds apart. -/
def gapsOK (db : Nat) : List (Nat × Nat) → Bool
  | [] => true
  | [_] => true
  | x :: y :: rest => decide (y.1 < x.1 + db) && gapsOK db (y :: rest)

/-- Deadline of the debounce timer after a burst of modification events:
`debounceMs` past the last event, or the incoming deadline `dl` when no
event arrived. -/
def finDeadline (c : Ctrl) : List (Nat × Nat) → Nat → Nat
  | [], dl => dl
  | [x], _ => x.1 + c.debounceMs
  | _ :: y :: rest, dl => finDeadline c (y :: rest) dl

/-- The controller state holds no tracking data at all for path `p`. -/
def ExcState (p : String) (s : CState) : Prop :=
  mget p s.fileChanges = none
    ∧ mget p s.lastDocumentedTime = none
    ∧ mget p s.pendingTimer = none
    ∧ s.documentedFiles.contains p = false

/-- History invariant tying the cooldown timestamp of path `p` to the
log of its timer-driven dispatches: the timestamp is the schedule time
of the last one, all of them are at or before it, and consecutive ones
are at least `cooldownMs` apart. -/
def TimerLogInv (c : Ctrl) (p : String) (s : CState) (log : List Dispatch) : Prop :=
  List.Pairwise (fun a b => a + c.cooldownMs ≤ b) (timerTimes p log)
    ∧ (match mget p s.lastDocumentedTime with
      | none => timerTimes p log = []
      | some lt => ∀ a ∈ timerTimes p log, a ≤ lt)

/-! ### Watcher notification classification (autodoc-guide.md lines 321-423) -/

/-- Watcher-side tracking state of `FileWatcher`. -/
structure WatcherState where
  knownFiles : List String
  knownDirs : List String
  fileContents : List (String × String)
deriving DecidableEq

/-- Result of `fs.promises.stat` in the notification callback: the stat
threw (file vanished), or reported a directory, or reported a file. -/
inductive StatResult
  | statFailed
  | statDir
  | statFile
deriving DecidableEq

/-- Needle of the watcher's filename filter. -/
def nodeModulesStr : String := "node_modules"

/-- Dot prefix used by the watcher's hidden-file filter. -/
def dotStr : String := "."

/-- The notification callback of `FileWatcher.watchDirectory`
(autodoc-guide.md lines 326-416): classify one native notification and
emit at most one normalized event. `readResult` is the outcome of the
`fs.promises.readFile` call in whichever branch performs one (`none`
when the read threw). -/
def handleNotification (w : WatcherState) (filename fullPath : String)
    (stat : StatResult) (readResult : Option String) : WatcherState × Option FSEvent :=
  if strIncl filename nodeModulesStr || strStarts filename dotStr then (w, none)
  else
    match stat with
    | .statFailed => (w, none)
    | .statDir =>
      if w.knownDirs.contains fullPath then (w, none)
      else
        ({ w with knownDirs := fullPath :: w.knownDirs },
          some ⟨FSEventType.directory_created, filename, fullPath, none, none, none⟩)
    | .statFile =>
      if w.knownFiles.contains fullPath then
        match readResult with
        | some newContent =>
          let oldContent := (mget fullPath w.fileContents).getD ""
          let d := calculateLineChanges oldContent newContent
          ({ w with fileContents := mset fullPath newContent w.fileContents },
            some ⟨FSEventType.file_modified, filename, fullPath, some d.total, some d.added, some d.deleted⟩)
        | none =>
          (w, some ⟨FSEventType.file_modified, filename, fullPath, none, none, none⟩)
      else
        let w1 : WatcherState := { w with knownFiles := fullPath :: w.knownFiles }
        match readResult with
        | some content =>
          ({ w1 with fileContents := mset fullPath content w1.fileContents },
            some ⟨FSEventType.file_created, filename, fullPath,
              some (splitNl content.data).length, none, none⟩)
        | none =>
          (w1, some ⟨FSEventType.file_created, filename, fullPath, none, none, none⟩)

/-! ### Constructor resolution (autodoc.ts lines 57-81) -/

/-- JS `v || dflt` on an optional numeric config field: `undefined` and
`0` are falsy and fall back to the default. -/
def jsOrNat (v : Option Nat) (dflt : Nat) : Nat :=
  match v with
  | none => dflt
  | some n => if n = 0 then dflt else n

/-- `this.cooldownMs = config.cooldownMs || 30000`. -/
def resolveCooldownMs (configCooldownMs : Option Nat) : Nat :=
  jsOrNat configCooldownMs 30000

/-- `this.debounceMs = config.debounceMs || 20000`. -/
def resolveDebounceMs (configDebounceMs : Option Nat) : Nat :=
  jsOrNat configDebounceMs 20000

/-! ### Public accessors and resets (autodoc.ts lines 280-319) -/

/-- `AutodocController.resetFileTracking`: delete the path's accumulated
count and cooldown timestamp, and cancel its pending timer. -/
def resetFileTracking (filePath : String) (s : CState) : CState :=
  { s with
    fileChanges := mdel filePath s.fileChanges
    lastDocumentedTime := mdel filePath s.lastDocumentedTime
    pendingTimer := mdel filePath s.pendingTimer }

/-- `AutodocController.getFileChanges`. -/
def getFileChanges (filePath : String) (s : CState) : Nat :=
  (mget filePath s.fileChanges).getD 0

/-- `AutodocController.isFileDocumented`. -/
def isFileDocumented (filePath : String) (s : CState) : Bool :=
  s.documentedFiles.contains filePath

/-- `AutodocController.reset`: cancel every timer and clear all maps. -/
def reset (_s : CState) : CState := ⟨[], [], [], []⟩

/-! ### Concrete fixtures used by witnesses and counterexamples -/

/-- Extension key configured in the fixture controller. -/
def tsExtStr : String := ".ts"

/-- An eligible fixture path. -/
def pathA : String := "/proj/a.ts"

/-- A fixture path under `node_modules`. -/
def pathExcl : String := "/proj/node_modules/b.ts"

/-- Fixture filename for watcher notifications. -/
def fnameA : String := "a.ts"

/-- Fixture controller: the spec section 8 scenario configuration
(threshold 40, debounce 20000, cooldown 30000). -/
def ctrlW : Ctrl :=
  { changeThreshold := 40, generateOnCreate := false, excludeDirs := none,
    extensionDetailMap := [(tsExtStr, DocDetailLevel.standard)],
    cooldownMs := 30000, debounceMs := 20000 }

/-- Fixture collaborator that always succeeds. -/
def oracleOk : CollabOracle := fun _ _ => CollabOutcome.returns ⟨true, none, none⟩

/-- Modification burst of the spec section 8 scenario: 10, 15 and 20
lines at t = 0, 5000, 8000. -/
def c3events : List (Nat × Nat) := [(0, 10), (5000, 15), (8000, 20)]

/-- Trace with two manual `documentFile` calls 1000 ms apart. -/
def c2steps : List TStep := [TStep.docFile 0 pathA, TStep.docFile 1000 pathA]

/-- State with 45 accumulated lines for `pathA` and its debounce timer
due at t = 28000. -/
def c1state : CState := ⟨[(pathA, 45)], [], [], [(pathA, 28000)]⟩

/-- Watcher fixture knowing `pathA` with snapshot content. -/
def w6 : WatcherState := ⟨[pathA], [], [(pathA, r"x")]⟩

/-- Trace hammering the excluded fixture path with large modifications
and a manual `documentFile` call. -/
def c7steps : List TStep :=
  [mkMod pathExcl (0, 100), mkMod pathExcl (1, 100), TStep.docFile 2 pathExcl]

/-! ## Helper lemmas -/

theorem mget_mdel_self {α : Type} (k : String) (l : List (String × α)) :
    mget k (mdel k l) = none := by
  induction l with
  | nil => rfl
  | cons kv r ih =>
    obtain ⟨a, b⟩ := kv
    by_cases h : a = k
    · simp [mdel, h, ih]
    · simp [mdel, mget, h, ih]

theorem mget_mdel_ne {α : Type} {k q : String} (h : q ≠ k) (l : List (String × α)) :
    mget q (mdel k l) = mget q l := by
  induction l with
  | nil => rfl
  | cons kv r ih =>
    obtain ⟨a, b⟩ := kv
    by_cases hk : a = k
    · have hkq : ¬ (k = q) := fun e => h e.symm
      simp [mdel, mget, hk, hkq, ih]
    · by_cases hq : a = q <;> simp [mdel, mget, hk, hq, h, ih]

theorem mget_mset_self {α : Type} (k : String) (v : α) (l : List (String × α)) :
    mget k (mset k v l) = some v := by
  simp [mset, mget]

theorem mget_mset_ne {α : Type} {k q : String} (h : q ≠ k) (v : α) (l : List (String × α)) :
    mget q (mset k v l) = mget q l := by
  have : k ≠ q := fun hk => h hk.symm
  simp [mset, mget, this, mget_mdel_ne h]

theorem splitNl_ne_nil (l : List Char) : splitNl l ≠ [] := by
  cases l with
  | nil => simp [splitNl]
  | cons c rest =>
    simp only [splitNl]
    by_cases h : c = '\n'
    · simp [h]
    · simp only [h, if_false]
      cases splitNl rest <;> simp

theorem splitNl_append (xs ys : List Char) :
    splitNl (xs ++ '\n' :: ys) = splitNl xs ++ splitNl ys := by
  induction xs with
  | nil => simp [splitNl]
  | cons c rest ih =>
    by_cases h : c = '\n'
    · simp [splitNl, h, ih]
    · cases hsp : splitNl rest with
      | nil => exact absurd hsp (splitNl_ne_nil rest)
      | cons h1 t1 =>
        simp [splitNl, h, ih, hsp]

theorem countModified_self (l : List (List Char)) : countModified l l = 0 := by
  induction l with
  | nil => rfl
  | cons a as ih => simp [countModified, ih]

theorem countModified_append (l m : List (List Char)) : countModified l (l ++ m) = 0 := by
  induction l with
  | nil => cases m <;> rfl
  | cons a as ih => simp [countModified, ih]

theorem countModified_eq_zip (a b : List (List Char)) :
    countModified a b = ((a.zip b).filter (fun pr => decide (pr.1 ≠ pr.2))).length := by
  induction a generalizing b with
  | nil => cases b <;> rfl
  | cons x xs ih =>
    cases b with
    | nil => rfl
    | cons y ys =>
      by_cases h : x = y
      · simp [countModified, List.zip_cons_cons, List.filter_cons, h, ih]
      · simp only [countModified, List.zip_cons_cons, List.filter_cons, h, ih]
        simp [h]
        omega

theorem natSub_cast_max (a b : Nat) : ((a - b : Nat) : Int) = max 0 ((a : Int) - (b : Int)) := by
  omega

theorem gen_mem {q p : String} (hne : p ≠ q) (df : List String) (oc : CollabOutcome) :
    p ∈ (generateDocumentation df q oc).1 ↔ p ∈ df := by
  cases oc with
  | returns r =>
    cases hr : r.success <;> simp [generateDocumentation, hr, hne]
  | throws m => simp [generateDocumentation]

theorem handleEvent_state_other (c : Ctrl) (g : CollabOracle) (t : Nat) (e : FSEvent)
    (s : CState) (p : String) (hne : p ≠ e.path) :
    mget p (handleEvent c g t e s).1.fileChanges = mget p s.fileChanges
      ∧ (handleEvent c g t e s).1.lastDocumentedTime = s.lastDocumentedTime
      ∧ mget p (handleEvent c g t e s).1.pendingTimer = mget p s.pendingTimer
      ∧ (handleEvent c g t e s).1.documentedFiles.contains p = s.documentedFiles.contains p := by
  cases hlc : e.linesChanged <;>
    simp only [handleEvent, hlc] <;>
    split_ifs <;>
    refine ⟨?_, ?_, ?_, ?_⟩ <;>
    simp [mget_mset_ne hne, mget_mdel_ne hne, gen_mem hne]

theorem handleEvent_log_paths (c : Ctrl) (g : CollabOracle) (t : Nat) (e : FSEvent)
    (s : CState) : ∀ d ∈ (handleEvent c g t e s).2, d.path = e.path := by
  cases hlc : e.linesChanged <;>
    simp only [handleEvent, hlc] <;>
    split_ifs <;>
    simp

theorem handleEvent_log_sources (c : Ctrl) (g : CollabOracle) (t : Nat) (e : FSEvent)
    (s : CState) : ∀ d ∈ (handleEvent c g t e s).2, d.source = DispatchSource.onCreate := by
  cases hlc : e.linesChanged <;>
    simp only [handleEvent, hlc] <;>
    split_ifs <;>
    simp

theorem handleEvent_lastDoc (c : Ctrl) (g : CollabOracle) (t : Nat) (e : FSEvent)
    (s : CState) : (handleEvent c g t e s).1.lastDocumentedTime = s.lastDocumentedTime := by
  cases hlc : e.linesChanged <;>
    simp only [handleEvent, hlc] <;>
    split_ifs <;>
    rfl

theorem handleFire_state_other (c : Ctrl) (g : CollabOracle) (t : Nat) (q : String)
    (s : CState) (p : String) (hne : p ≠ q) :
    mget p (handleFire c g t q s).1.fileChanges = mget p s.fileChanges
      ∧ mget p (handleFire c g t q s).1.lastDocumentedTime = mget p s.lastDocumentedTime
      ∧ mget p (handleFire c g t q s).1.pendingTimer = mget p s.pendingTimer
      ∧ (handleFire c g t q s).1.documentedFiles.contains p = s.documentedFiles.contains p := by
  simp only [handleFire, timerFireSchedule, timerFireComplete]
  split_ifs <;>
    refine ⟨?_, ?_, ?_, ?_⟩ <;>
    simp [mget_mset_ne hne, mget_mdel_ne hne, gen_mem hne]

theorem handleFire_log (c : Ctrl) (g : CollabOracle) (t : Nat) (q : String) (s : CState) :
    ∀ d ∈ (handleFire c g t q s).2, d.path = q ∧ d.source = DispatchSource.timerFire := by
  simp only [handleFire, timerFireSchedule]
  split_ifs <;> simp

theorem handleDocFile_state_other (c : Ctrl) (g : CollabOracle) (t : Nat) (q : String)
    (s : CState) (p : String) (hne : p ≠ q) :
    mget p (handleDocFile c g t q s).1.fileChanges = mget p s.fileChanges
      ∧ mget p (handleDocFile c g t q s).1.lastDocumentedTime = mget p s.lastDocumentedTime
      ∧ mget p (handleDocFile c g t q s).1.pendingTimer = mget p s.pendingTimer
      ∧ (handleDocFile c g t q s).1.documentedFiles.contains p = s.documentedFiles.contains p := by
  simp only [handleDocFile]
  split_ifs <;>
    refine ⟨?_, ?_, ?_, ?_⟩ <;>
    simp [gen_mem hne]

theorem handleDocFile_log (c : Ctrl) (g : CollabOracle) (t : Nat) (q : String) (s : CState) :
    ∀ d ∈ (handleDocFile c g t q s).2, d.path = q ∧ d.source = DispatchSource.manual := by
  simp only [handleDocFile]
  split_ifs <;> simp

theorem shouldExclude_of_reason (c : Ctrl) (p : String)
    (h : underExcludedDir c p = true ∨ strEnds p mdSuffix = true
      ∨ ∃ e1, getExtMatch p = some e1 ∧ mget e1 c.extensionDetailMap = none) :
    shouldExclude c p = true := by
  unfold shouldExclude
  by_cases h1 : underExcludedDir c p = true
  · simp [h1]
  · rcases h with h | h | ⟨e1, he, hm⟩
    · exact absurd h h1
    · simp [h1, h]
    · by_cases h2 : strEnds p mdSuffix = true
      · simp [h1, h2]
      · simp [h1, h2, he, hm]

theorem applyStep_excluded (c : Ctrl) (g : CollabOracle) (p : String)
    (hexc : shouldExclude c p = true) (st : TStep) (s : CState) (hs : ExcState p s) :
    ExcState p (applyStep c g s st).1 ∧ ∀ d ∈ (applyStep c g s st).2, d.path ≠ p := by
  obtain ⟨hf, hl, ht, hd⟩ := hs
  cases st with
  | fsEvent t e =>
    by_cases hep : p = e.path
    · have hexcl : shouldExclude c e.path = true := by rw [← hep]; exact hexc
      by_cases h1 : e.type = FSEventType.directory_created
      · simp only [applyStep, handleEvent, if_pos h1]
        exact ⟨⟨hf, hl, ht, hd⟩, by simp⟩
      · simp only [applyStep, handleEvent, if_neg h1, if_pos hexcl]
        exact ⟨⟨hf, hl, ht, hd⟩, by simp⟩
    · obtain ⟨a1, a2, a3, a4⟩ := handleEvent_state_other c g t e s p hep
      refine ⟨⟨?_, ?_, ?_, ?_⟩, ?_⟩
      · simpa only [applyStep, a1] using hf
      · simp only [applyStep, a2]; exact hl
      · simpa only [applyStep, a3] using ht
      · simpa only [applyStep, a4] using hd
      · intro d hdm
        have := handleEvent_log_paths c g t e s d hdm
        rw [this]
        exact fun hh => hep hh.symm
  | fire t q =>
    by_cases hqp : q = p
    · subst hqp
      have hg : ¬ (mget q s.pendingTimer = some t) := by rw [ht]; simp
      simp only [applyStep, handleFire, if_neg hg]
      exact ⟨⟨hf, hl, ht, hd⟩, by simp⟩
    · have hne : p ≠ q := fun e1 => hqp e1.symm
      obtain ⟨a1, a2, a3, a4⟩ := handleFire_state_other c g t q s p hne
      refine ⟨⟨?_, ?_, ?_, ?_⟩, ?_⟩
      · simpa only [applyStep, a1] using hf
      · simpa only [applyStep, a2] using hl
      · simpa only [applyStep, a3] using ht
      · simpa only [applyStep, a4] using hd
      · intro d hdm
        have := (handleFire_log c g t q s d hdm).1
        rw [this]
        exact hqp
  | docFile t q =>
    by_cases hqp : q = p
    · subst hqp
      simp only [applyStep, handleDocFile, if_pos hexc]
      exact ⟨⟨hf, hl, ht, hd⟩, by simp⟩
    · have hne : p ≠ q := fun e1 => hqp e1.symm
      obtain ⟨a1, a2, a3, a4⟩ := handleDocFile_state_other c g t q s p hne
      refine ⟨⟨?_, ?_, ?_, ?_⟩, ?_⟩
      · simpa only [applyStep, a1] using hf
      · simpa only [applyStep, a2] using hl
      · simpa only [applyStep, a3] using ht
      · simpa only [applyStep, a4] using hd
      · intro d hdm
        have := (handleDocFile_log c g t q s d hdm).1
        rw [this]
        exact hqp

theorem runSteps_excluded (c : Ctrl) (g : CollabOracle) (p : String)
    (hexc : shouldExclude c p = true) :
    ∀ (steps : List TStep) (s : CState), ExcState p s →
      ExcState p (runSteps c g steps s).1 ∧ ∀ d ∈ (runSteps c g steps s).2, d.path ≠ p := by
  intro steps
  induction steps with
  | nil => intro s hs; exact ⟨hs, by simp [runSteps]⟩
  | cons st rest ih =>
    intro s hs
    obtain ⟨h1, h2⟩ := applyStep_excluded c g p hexc st s hs
    obtain ⟨h3, h4⟩ := ih _ h1
    refine ⟨h3, ?_⟩
    intro d hdm
    simp only [runSteps, List.mem_append] at hdm
    rcases hdm with hdm | hdm
    · exact h2 d hdm
    · exact h4 d hdm

theorem timerTimes_append (p : String) (l1 l2 : List Dispatch) :
    timerTimes p (l1 ++ l2) = timerTimes p l1 ++ timerTimes p l2 := by
  simp [timerTimes, List.filter_append]

theorem timerTimes_nonTimer {p : String} {l : List Dispatch}
    (h : ∀ d ∈ l, d.source ≠ DispatchSource.timerFire ∨ d.path ≠ p) :
    timerTimes p l = [] := by
  simp only [timerTimes, List.map_eq_nil_iff, List.filter_eq_nil_iff]
  intro d hd
  rcases h d hd with h1 | h1 <;> simp [h1]

theorem handleDocFile_lastDoc (c : Ctrl) (g : CollabOracle) (t : Nat) (q : String)
    (s : CState) : (handleDocFile c g t q s).1.lastDocumentedTime = s.lastDocumentedTime := by
  simp only [handleDocFile]
  split_ifs <;> rfl

theorem applyStep_timerInv (c : Ctrl) (g : CollabOracle) (p : String) (st : TStep)
    (s : CState) (log : List Dispatch) (hinv : TimerLogInv c p s log) :
    TimerLogInv c p (applyStep c g s st).1 (log ++ (applyStep c g s st).2) := by
  obtain ⟨hpw, hlast⟩ := hinv
  cases st with
  | fsEvent t e =>
    show TimerLogInv c p (handleEvent c g t e s).1 (log ++ (handleEvent c g t e s).2)
    have h1 := handleEvent_lastDoc c g t e s
    have h2 : timerTimes p (handleEvent c g t e s).2 = [] := by
      refine timerTimes_nonTimer ?_
      intro d hd
      exact Or.inl (by simp [handleEvent_log_sources c g t e s d hd])
    constructor
    · rw [timerTimes_append, h2, List.append_nil]
      exact hpw
    · rw [h1, timerTimes_append, h2, List.append_nil]
      exact hlast
  | docFile t q =>
    show TimerLogInv c p (handleDocFile c g t q s).1 (log ++ (handleDocFile c g t q s).2)
    have h1 := handleDocFile_lastDoc c g t q s
    have h2 : timerTimes p (handleDocFile c g t q s).2 = [] := by
      refine timerTimes_nonTimer ?_
      intro d hd
      exact Or.inl (by simp [(handleDocFile_log c g t q s d hd).2])
    constructor
    · rw [timerTimes_append, h2, List.append_nil]
      exact hpw
    · rw [h1, timerTimes_append, h2, List.append_nil]
      exact hlast
  | fire t q =>
    show TimerLogInv c p (handleFire c g t q s).1 (log ++ (handleFire c g t q s).2)
    by_cases hg : mget q s.pendingTimer = some t
    · by_cases hcd : isInCooldown c t q { s with pendingTimer := mdel q s.pendingTimer } = true
      · have hts : handleFire c g t q s = ({ s with pendingTimer := mdel q s.pendingTimer }, []) := by
          simp [handleFire, timerFireSchedule, hg, hcd]
        rw [hts]
        exact ⟨by simpa using hpw, by simpa using hlast⟩
      · have hts : handleFire c g t q s
            = (timerFireComplete q
                { s with
                  pendingTimer := mdel q s.pendingTimer
                  lastDocumentedTime := mset q t s.lastDocumentedTime
                  documentedFiles := (generateDocumentation s.documentedFiles q (g t q)).1 },
              [⟨q, t, (mget q s.fileChanges).getD 0, DispatchSource.timerFire⟩]) := by
          simp [handleFire, timerFireSchedule, hg, hcd]
        rw [hts]
        by_cases hqp : q = p
        · subst hqp
          have hnew : mget q (timerFireComplete q
              { s with
                pendingTimer := mdel q s.pendingTimer
                lastDocumentedTime := mset q t s.lastDocumentedTime
                documentedFiles := (generateDocumentation s.documentedFiles q (g t q)).1
                }).lastDocumentedTime = some t := by
            simp [timerFireComplete, mget_mset_self]
          have hsingle : timerTimes q [(⟨q, t, (mget q s.fileChanges).getD 0,
              DispatchSource.timerFire⟩ : Dispatch)] = [t] := by
            simp [timerTimes]
          cases hml : mget q s.lastDocumentedTime with
          | none =>
            have hts0 : timerTimes q log = [] := by
              have h0 := hlast
              rw [hml] at h0
              exact h0
            constructor
            · rw [timerTimes_append, hts0, hsingle]
              simp
            · rw [hnew, timerTimes_append, hts0, hsingle]
              simp
          | some lt =>
            have hlast2 : ∀ a ∈ timerTimes q log, a ≤ lt := by
              have h0 := hlast
              rw [hml] at h0
              exact h0
            have hcd2 : ¬ ((t : Int) - (lt : Int) < (c.cooldownMs : Int)) := by
              intro hlt
              apply hcd
              simp [isInCooldown, hml, hlt]
            have hle : lt + c.cooldownMs ≤ t := by omega
            constructor
            · rw [timerTimes_append, hsingle]
              refine List.pairwise_append.mpr ⟨hpw, by simp, ?_⟩
              intro a ha b hb
              simp only [List.mem_singleton] at hb
              rw [hb]
              exact le_trans (Nat.add_le_add_right (hlast2 a ha) _) hle
            · rw [hnew, timerTimes_append, hsingle]
              intro a ha
              rcases List.mem_append.mp ha with ha | ha
              · exact le_trans (hlast2 a ha) (by omega)
              · simp only [List.mem_singleton] at ha
                rw [ha]
        · have hne : p ≠ q := fun e1 => hqp e1.symm
          have hpres : mget p (timerFireComplete q
              { s with
                pendingTimer := mdel q s.pendingTimer
                lastDocumentedTime := mset q t s.lastDocumentedTime
                documentedFiles := (generateDocumentation s.documentedFiles q (g t q)).1
                }).lastDocumentedTime = mget p s.lastDocumentedTime := by
            simp [timerFireComplete, mget_mset_ne hne]
          have hsingle : timerTimes p [(⟨q, t, (mget q s.fileChanges).getD 0,
              DispatchSource.timerFire⟩ : Dispatch)] = [] := by
            simp [timerTimes, hqp]
          constructor
          · rw [timerTimes_append, hsingle, List.append_nil]
            exact hpw
          · rw [hpres, timerTimes_append, hsingle, List.append_nil]
            exact hlast
    · have hts : handleFire c g t q s = (s, []) := by
        simp [handleFire, hg]
      rw [hts]
      exact ⟨by simpa using hpw, by simpa using hlast⟩

theorem runSteps_timerInv (c : Ctrl) (g : CollabOracle) (p : String) :
    ∀ (steps : List TStep) (s : CState) (log : List Dispatch), TimerLogInv c p s log →
      TimerLogInv c p (runSteps c g steps s).1 (log ++ (runSteps c g steps s).2) := by
  intro steps
  induction steps with
  | nil => intro s log h; simpa [runSteps] using h
  | cons st rest ih =>
    intro s log h
    have h1 := applyStep_timerInv c g p st s log h
    have h2 := ih (applyStep c g s st).1 (log ++ (applyStep c g s st).2) h1
    simpa [runSteps, List.append_assoc] using h2

theorem finDeadline_dl_irrel (c : Ctrl) (y : Nat × Nat) (ys : List (Nat × Nat)) (dl dl2 : Nat) :
    finDeadline c (y :: ys) dl = finDeadline c (y :: ys) dl2 := by
  induction ys generalizing y with
  | nil => rfl
  | cons z zs ih => simpa [finDeadline] using ih z

theorem finDeadline_cons (c : Ctrl) (x : Nat × Nat) (es : List (Nat × Nat)) (dl : Nat) :
    finDeadline c (x :: es) dl = finDeadline c es (x.1 + c.debounceMs) := by
  cases es with
  | nil => rfl
  | cons y ys => simpa [finDeadline] using finDeadline_dl_irrel c y ys dl (x.1 + c.debounceMs)

theorem runSteps_append (c : Ctrl) (g : CollabOracle) (xs ys : List TStep) (s : CState) :
    runSteps c g (xs ++ ys) s
      = ((runSteps c g ys (runSteps c g xs s).1).1,
          (runSteps c g xs s).2 ++ (runSteps c g ys (runSteps c g xs s).1).2) := by
  induction xs generalizing s with
  | nil => simp [runSteps]
  | cons st rest ih => simp [runSteps, ih, List.append_assoc]

theorem tracked_append (c : Ctrl) (g : CollabOracle) (xs ys : List TStep) (s : CState) :
    tracked c g s (xs ++ ys)
      = (tracked c g s xs && tracked c g (runSteps c g xs s).1 ys) := by
  induction xs generalizing s with
  | nil => simp [tracked, runSteps]
  | cons st rest ih => simp [tracked, runSteps, ih, Bool.and_assoc]

theorem handleEvent_mod_step (c : Ctrl) (g : CollabOracle) (p : String)
    (hexc : shouldExclude c p = false) (t a : Nat) (f0 : List (String × Nat))
    (df : List String) (pt : List (String × Nat))
    (hdel : mdel p f0 = []) (hptdel : mdel p pt = []) :
    handleEvent c g t ⟨FSEventType.file_modified, p, p, some a, none, none⟩ ⟨f0, df, [], pt⟩
      = (⟨[(p, (mget p f0).getD 0 + a)], df, [],
          if c.changeThreshold ≤ (mget p f0).getD 0 + a then [(p, t + c.debounceMs)] else pt⟩,
        []) := by
  by_cases hth : c.changeThreshold ≤ (mget p f0).getD 0 + a <;>
    simp [handleEvent, hexc, hth, isInCooldown, mget, mset, mdel, hdel, hptdel]
theorem mdel_self_pair (p : String) (v : Nat) : mdel p [(p, v)] = [] := by
  simp [mdel]

theorem runMods (c : Ctrl) (g : CollabOracle) (p : String)
    (hexc : shouldExclude c p = false) :
    ∀ (es : List (Nat × Nat)) (cc dl : Nat) (df : List String),
      gapsOK c.debounceMs es = true →
      (∀ x ∈ es.head?, c.changeThreshold ≤ cc → x.1 < dl) →
      runSteps c g (es.map (mkMod p))
          ⟨[(p, cc)], df, [], if c.changeThreshold ≤ cc then [(p, dl)] else []⟩
        = (⟨[(p, cc + amtSum es)], df, [],
            if c.changeThreshold ≤ cc + amtSum es then [(p, finDeadline c es dl)] else []⟩, [])
      ∧ tracked c g ⟨[(p, cc)], df, [], if c.changeThreshold ≤ cc then [(p, dl)] else []⟩
          (es.map (mkMod p)) = true := by
  intro es
  induction es with
  | nil =>
    intro cc dl df hgap hfirst
    constructor
    · simp [runSteps, amtSum, finDeadline]
    · simp [tracked]
  | cons x rest ih =>
    intro cc dl df hgap hfirst
    obtain ⟨t, a⟩ := x
    have hstep := handleEvent_mod_step c g p hexc t a [(p, cc)] df
      (if c.changeThreshold ≤ cc then [(p, dl)] else []) (mdel_self_pair p cc)
      (by split_ifs <;> simp [mdel])
    have hget : (mget p [(p, cc)]).getD 0 = cc := by simp [mget]
    rw [hget] at hstep
    -- the pending-timer shape after the step
    have hpt2 : (if c.changeThreshold ≤ cc + a then [(p, t + c.debounceMs)]
          else if c.changeThreshold ≤ cc then [(p, dl)] else [])
        = (if c.changeThreshold ≤ cc + a then [(p, t + c.debounceMs)] else []) := by
      by_cases h1 : c.changeThreshold ≤ cc + a
      · simp [h1]
      · have h2 : ¬ c.changeThreshold ≤ cc :=
          fun hc => h1 (le_trans hc (Nat.le_add_right _ _))
        simp [h1, h2]
    -- gap facts
    have hgap2 : gapsOK c.debounceMs rest = true := by
      cases rest with
      | nil => rfl
      | cons y ys =>
        have := hgap
        simp only [gapsOK, Bool.and_eq_true] at this
        exact this.2
    have hfirst2 : ∀ y ∈ rest.head?, c.changeThreshold ≤ cc + a → y.1 < t + c.debounceMs := by
      cases rest with
      | nil => intro y hy; simp at hy
      | cons y ys =>
        intro z hz _
        simp only [List.head?_cons, Option.mem_def, Option.some.injEq] at hz
        subst hz
        have := hgap
        simp only [gapsOK, Bool.and_eq_true, decide_eq_true_eq] at this
        exact this.1
    obtain ⟨ihrun, ihtr⟩ := ih (cc + a) (t + c.debounceMs) df hgap2 hfirst2
    constructor
    · show (runSteps c g (mkMod p (t, a) :: rest.map (mkMod p)) _) = _
      simp only [runSteps, applyStep, mkMod, hstep, hpt2]
      rw [ihrun]
      simp [Nat.add_assoc, amtSum, finDeadline_cons]
    · show tracked c g _ (mkMod p (t, a) :: rest.map (mkMod p)) = true
      simp only [tracked, mkMod, applyStep, stepOK, Bool.and_eq_true]
      constructor
      · by_cases h1 : c.changeThreshold ≤ cc
        · have hlt : t < dl := hfirst (t, a) (by simp) h1
          simp [h1, hlt]
        · simp [h1]
      · have := ihtr
        simp only [hstep, hpt2]
        simpa [mkMod] using this
theorem handleFire_live (c : Ctrl) (g : CollabOracle) (p : String) (D S : Nat)
    (df : List String) :
    handleFire c g D p ⟨[(p, S)], df, [], [(p, D)]⟩
      = (⟨[(p, 0)], (generateDocumentation df p (g D p)).1, [(p, D)], []⟩,
          [⟨p, D, S, DispatchSource.timerFire⟩]) := by
  simp [handleFire, timerFireSchedule, timerFireComplete, isInCooldown, mget, mset, mdel]

/-! ## Claims -/

/-- Claim C4 (confirmed): `calculateLineChanges` splits both contents on
newlines and returns `added = max(0, newLen - oldLen)`,
`deleted = max(0, oldLen - newLen)` and
`total = added + deleted + (count of indices below both lengths where
the line arrays differ)`. -/
theorem c4_line_diff_formula (o n : String) :
    ((calculateLineChanges o n).added : Int)
        = max 0 (((splitNl n.data).length : Int) - ((splitNl o.data).length : Int))
      ∧ ((calculateLineChanges o n).deleted : Int)
        = max 0 (((splitNl o.data).length : Int) - ((splitNl n.data).length : Int))
      ∧ (calculateLineChanges o n).total
        = (calculateLineChanges o n).added + (calculateLineChanges o n).deleted
            + specModifiedCount o n := by
  refine ⟨natSub_cast_max _ _, natSub_cast_max _ _, ?_⟩
  simp only [calculateLineChanges, specModifiedCount, countModified_eq_zip]
  omega

/-- Claim C5 (confirmed): diffing any content against itself yields
`{total: 0, added: 0, deleted: 0}`, and diffing content against the same
content with the lines of `extra` strictly appended (content, a newline,
then `extra`) yields `{total: k, added: k, deleted: 0}` where
`k = number of appended lines ≥ 1`. -/
theorem c5_diff_append_and_identity (old extra : String) :
    calculateLineChanges old old = ⟨0, 0, 0⟩
      ∧ 1 ≤ (splitNl extra.data).length
      ∧ calculateLineChanges old (old ++ "\n" ++ extra)
        = ⟨(splitNl extra.data).length, (splitNl extra.data).length, 0⟩ := by
  refine ⟨?_, ?_, ?_⟩
  · simp [calculateLineChanges, countModified_self]
  · have := splitNl_ne_nil extra.data
    cases hsp : splitNl extra.data with
    | nil => exact absurd hsp this
    | cons a as => simp
  · have hdata : (old ++ "\n" ++ extra).data = old.data ++ '\n' :: extra.data := by
      simp [String.data_append]
    simp only [calculateLineChanges, hdata, splitNl_append, countModified_append,
      List.length_append, LineDiff.mk.injEq]
    refine ⟨by omega, by omega, by omega⟩

/-- Claim C8 (confirmed): every call of `generateDocumentation` delivers
exactly one result to the caller-supplied callback, successful exactly
when the collaborator reported success; the function is total on every
collaborator behaviour including a throw, so collaborator exceptions
never propagate past the dispatch boundary. -/
theorem c8_dispatch_exactly_one_result (df : List String) (p : String) (oc : CollabOutcome) :
    ((generateDocumentation df p oc).2).map (fun r => (r.filePath, r.success))
      = [(p, collabSuccess oc)] := by
  cases oc with
  | returns r => cases hr : r.success <;> simp [generateDocumentation, collabSuccess, hr]
  | throws m => simp [generateDocumentation, collabSuccess]

/-- Claim C9 (confirmed): `resetFileTracking` clears only the path's
accumulated count, cooldown timestamp and pending timer; the
documented-files marker is untouched, so `isFileDocumented` is unchanged
at every path, while the global `reset` clears the marker. -/
theorem c9_reset_tracking_frame (s : CState) (p q : String) :
    isFileDocumented q (resetFileTracking p s) = isFileDocumented q s
      ∧ (resetFileTracking p s).documentedFiles = s.documentedFiles
      ∧ mget p (resetFileTracking p s).fileChanges = none
      ∧ mget p (resetFileTracking p s).lastDocumentedTime = none
      ∧ mget p (resetFileTracking p s).pendingTimer = none
      ∧ isFileDocumented q (reset s) = false := by
  refine ⟨rfl, rfl, mget_mdel_self _ _, mget_mdel_self _ _, mget_mdel_self _ _, ?_⟩
  simp [isFileDocumented, reset]

/-- Claim C10 (confirmed): the constructor turns a missing or zero
`cooldownMs`/`debounceMs` into the defaults 30000/20000 (JS `||` treats
0 as falsy), keeps any nonzero value, and therefore never yields a zero
cooldown or debounce. -/
theorem c10_constructor_defaults (o : Option Nat) :
    resolveCooldownMs none = 30000
      ∧ resolveCooldownMs (some 0) = 30000
      ∧ resolveDebounceMs none = 20000
      ∧ resolveDebounceMs (some 0) = 20000
      ∧ (resolveCooldownMs o = match o with | some (n + 1) => n + 1 | _ => 30000)
      ∧ (resolveDebounceMs o = match o with | some (n + 1) => n + 1 | _ => 20000)
      ∧ resolveCooldownMs o ≠ 0
      ∧ resolveDebounceMs o ≠ 0 := by
  refine ⟨rfl, rfl, rfl, rfl, ?_, ?_, ?_, ?_⟩ <;>
    rcases o with _ | (_ | n) <;> simp [resolveCooldownMs, resolveDebounceMs, jsOrNat]

/-- Claim C1 counterexample: in the fixture state `pathA` has 45
accumulated lines and its timer fires at t = 28000. The schedule phase
returns `some 45` (a dispatch is scheduled with the accumulated total),
yet at that instant the accumulated count is still 45, not zero — the
code resets `fileChanges` only after the awaited generation completes. -/
theorem c1_counterexample :
    (timerFireSchedule ctrlW 28000 pathA c1state).2 = some 45
      ∧ getFileChanges pathA (timerFireSchedule ctrlW 28000 pathA c1state).1 = 45
      ∧ ¬ getFileChanges pathA (timerFireSchedule ctrlW 28000 pathA c1state).1 = 0 := by
  decide

/-- Claim C1 as amended: the schedule phase of the timer callback (up to
and including starting the dispatch) leaves `fileChanges` entirely
unchanged; the counter is set to zero only in the completion phase after
the awaited generation returns, whatever state that phase runs in — so
Modified events arriving while generation is in flight are first added
to the stale total and then wiped by the post-completion reset. -/
theorem c1_amended_reset_after_completion (c : Ctrl) (now : Nat) (p : String) (s s2 : CState) :
    (timerFireSchedule c now p s).1.fileChanges = s.fileChanges
      ∧ mget p (timerFireComplete p s2).fileChanges = some 0 := by
  constructor
  · simp only [timerFireSchedule]
    split <;> rfl
  · simp [timerFireComplete, mget_mset_self]

/-- Claim C6 counterexample: a notification for the known file `pathA`
whose stat succeeds but whose content read fails is not suppressed — the
watcher still emits a `file_modified` event without line counts. -/
theorem c6_counterexample :
    (handleNotification w6 fnameA pathA StatResult.statFile none).2
      = some ⟨FSEventType.file_modified, fnameA, pathA, none, none, none⟩
      ∧ ¬ (handleNotification w6 fnameA pathA StatResult.statFile none).2 = none := by
  decide

/-- Claim C6 as amended: when the stat fails the notification is
suppressed entirely; but when the stat succeeds and only the subsequent
content read of a previously-known file fails, a `file_modified` event
without line counts is still emitted. -/
theorem c6_amended_stat_failure_only (w : WatcherState) (filename fullPath : String)
    (readResult : Option String)
    (hknown : w.knownFiles.contains fullPath = true)
    (hname : (strIncl filename nodeModulesStr || strStarts filename dotStr) = false) :
    (handleNotification w filename fullPath StatResult.statFailed readResult).2 = none
      ∧ (handleNotification w filename fullPath StatResult.statFile none).2
        = some ⟨FSEventType.file_modified, filename, fullPath, none, none, none⟩ := by
  constructor
  · simp only [handleNotification]
    split <;> rfl
  · have hmem : fullPath ∈ w.knownFiles := by simpa using hknown
    simp [handleNotification, hname, hmem]

/-- Witness for the amended claim C6 at the watcher fixture. -/
theorem c6_amended_stat_failure_only_witness :
    w6.knownFiles.contains pathA = true
      ∧ (strIncl fnameA nodeModulesStr || strStarts fnameA dotStr) = false
      ∧ (handleNotification w6 fnameA pathA StatResult.statFailed none).2 = none
      ∧ (handleNotification w6 fnameA pathA StatResult.statFile none).2
        = some ⟨FSEventType.file_modified, fnameA, pathA, none, none, none⟩ :=
  ⟨by decide, by decide,
    (c6_amended_stat_failure_only w6 fnameA pathA none (by decide) (by decide)).1,
    (c6_amended_stat_failure_only w6 fnameA pathA none (by decide) (by decide)).2⟩

/-- Claim C3 (confirmed): from the idle state on an eligible path, for
any nonempty burst of `Modified` events whose summed `linesChanged`
reaches `changeThreshold` and whose consecutive events arrive less than
`debounceMs` apart, the timer-complete trace (the burst followed by the
one surviving debounce timer firing `debounceMs` after the last event)
produces exactly one dispatch, invoked with the full accumulated sum,
and leaves no live timer. -/
theorem c3_burst (c : Ctrl) (g : CollabOracle) (p : String) (es : List (Nat × Nat))
    (hne : es ≠ [])
    (hexc : shouldExclude c p = false)
    (hsum : c.changeThreshold ≤ amtSum es)
    (hgap : gapsOK c.debounceMs es = true) :
    (runSteps c g (es.map (mkMod p) ++ [TStep.fire (finDeadline c es 0) p]) emptyState).2
      = [⟨p, finDeadline c es 0, amtSum es, DispatchSource.timerFire⟩]
    ∧ tracked c g emptyState (es.map (mkMod p) ++ [TStep.fire (finDeadline c es 0) p]) = true
    ∧ (runSteps c g (es.map (mkMod p) ++ [TStep.fire (finDeadline c es 0) p])
        emptyState).1.pendingTimer = [] := by
  cases es with
  | nil => exact absurd rfl hne
  | cons x rest =>
    obtain ⟨t, a⟩ := x
    have hstep0 := handleEvent_mod_step c g p hexc t a [] [] [] rfl rfl
    simp only [mget, Option.getD_none, Nat.zero_add] at hstep0
    have hgap2 : gapsOK c.debounceMs rest = true := by
      cases rest with
      | nil => rfl
      | cons y ys =>
        have h0 := hgap
        simp only [gapsOK, Bool.and_eq_true] at h0
        exact h0.2
    have hfirst2 : ∀ y ∈ rest.head?, c.changeThreshold ≤ a → y.1 < t + c.debounceMs := by
      cases rest with
      | nil => intro y hy; simp at hy
      | cons y ys =>
        intro z hz _
        simp only [List.head?_cons, Option.mem_def, Option.some.injEq] at hz
        subst hz
        have h0 := hgap
        simp only [gapsOK, Bool.and_eq_true, decide_eq_true_eq] at h0
        exact h0.1
    obtain ⟨ihrun, ihtr⟩ := runMods c g p hexc rest a (t + c.debounceMs) [] hgap2 hfirst2
    have hsum2 : c.changeThreshold ≤ a + amtSum rest := by
      simpa [amtSum] using hsum
    have hrunevs : runSteps c g ((mkMod p (t, a)) :: rest.map (mkMod p)) emptyState
        = (⟨[(p, a + amtSum rest)], [], [], [(p, finDeadline c rest (t + c.debounceMs))]⟩, []) := by
      simp only [runSteps, applyStep, mkMod, emptyState, hstep0]
      rw [ihrun]
      simp [hsum2]
    have hmk : mkMod p (t, a)
        = TStep.fsEvent t ⟨FSEventType.file_modified, p, p, some a, none, none⟩ := rfl
    have htrevs : tracked c g emptyState ((mkMod p (t, a)) :: rest.map (mkMod p)) = true := by
      rw [hmk]
      simp only [tracked, applyStep, stepOK, emptyState, Bool.and_eq_true]
      refine ⟨by simp, ?_⟩
      rw [hstep0]
      exact ihtr
    have hD : finDeadline c ((t, a) :: rest) 0 = finDeadline c rest (t + c.debounceMs) :=
      finDeadline_cons c (t, a) rest 0
    have hfire := handleFire_live c g p (finDeadline c rest (t + c.debounceMs))
      (a + amtSum rest) []
    refine ⟨?_, ?_, ?_⟩
    · rw [show ((t, a) :: rest).map (mkMod p) = mkMod p (t, a) :: rest.map (mkMod p) from rfl,
        runSteps_append, hrunevs, hD]
      simp only [runSteps, applyStep, hfire]
      simp [amtSum]
    · rw [show ((t, a) :: rest).map (mkMod p) = mkMod p (t, a) :: rest.map (mkMod p) from rfl,
        tracked_append, hrunevs, hD, htrevs]
      simp [tracked, stepOK, applyStep, mget]
    · rw [show ((t, a) :: rest).map (mkMod p) = mkMod p (t, a) :: rest.map (mkMod p) from rfl,
        runSteps_append, hrunevs, hD]
      simp only [runSteps, applyStep, hfire]

/-- Witness for claim C3: the spec section 8 scenario — events of 10, 15
and 20 lines at t = 0, 5000, 8000 against threshold 40 produce exactly
one dispatch at t = 28000 with accumulated total 45. -/
theorem c3_burst_witness :
    c3events ≠ []
      ∧ shouldExclude ctrlW pathA = false
      ∧ ctrlW.changeThreshold ≤ amtSum c3events
      ∧ gapsOK ctrlW.debounceMs c3events = true
      ∧ (runSteps ctrlW oracleOk (c3events.map (mkMod pathA)
            ++ [TStep.fire (finDeadline ctrlW c3events 0) pathA]) emptyState).2
        = [⟨pathA, finDeadline ctrlW c3events 0, amtSum c3events, DispatchSource.timerFire⟩] :=
  ⟨by decide, by decide, by decide, by decide,
    (c3_burst ctrlW oracleOk pathA c3events (by decide) (by decide) (by decide) (by decide)).1⟩

/-- Claim C7 (confirmed): a path under an excluded directory
(path-separator-aware substring match), or ending in `.md`, or whose
extension has no configured detail level, is dropped before any per-path
state update — over every trace from the idle state, no dispatch ever
names it and the controller never creates tracking state for it. -/
theorem c7_excluded_path_never_dispatches (c : Ctrl) (g : CollabOracle) (p : String)
    (steps : List TStep)
    (h : underExcludedDir c p = true ∨ strEnds p mdSuffix = true
      ∨ ∃ e1, getExtMatch p = some e1 ∧ mget e1 c.extensionDetailMap = none) :
    (∀ d ∈ (runSteps c g steps emptyState).2, d.path ≠ p)
      ∧ ExcState p (runSteps c g steps emptyState).1 := by
  have hexc := shouldExclude_of_reason c p h
  have base : ExcState p emptyState := ⟨rfl, rfl, rfl, rfl⟩
  obtain ⟨h1, h2⟩ := runSteps_excluded c g p hexc steps emptyState base
  exact ⟨h2, h1⟩

/-- Witness for claim C7: the fixture path under `node_modules`, hit by
two 100-line modifications and a manual call, never dispatches and
acquires no tracking state. -/
theorem c7_excluded_path_never_dispatches_witness :
    (underExcludedDir ctrlW pathExcl = true ∨ strEnds pathExcl mdSuffix = true
      ∨ ∃ e1, getExtMatch pathExcl = some e1 ∧ mget e1 ctrlW.extensionDetailMap = none)
      ∧ (∀ d ∈ (runSteps ctrlW oracleOk c7steps emptyState).2, d.path ≠ pathExcl)
      ∧ ExcState pathExcl (runSteps ctrlW oracleOk c7steps emptyState).1 :=
  ⟨Or.inl (by decide),
    (c7_excluded_path_never_dispatches ctrlW oracleOk pathExcl c7steps (Or.inl (by decide))).1,
    (c7_excluded_path_never_dispatches ctrlW oracleOk pathExcl c7steps (Or.inl (by decide))).2⟩

/-- Claim C2 as amended: any two debounce-timer-driven dispatches for
the same path are separated by at least `cooldownMs`, measured from
schedule time, over every trace from the idle state — but dispatches
from `Created` events with `generateOnCreate` and from manual
`documentFile` calls bypass the cooldown entirely and may occur
arbitrarily close together (see the counterexample). -/
theorem c2_amended_timer_dispatch_cooldown (c : Ctrl) (g : CollabOracle)
    (steps : List TStep) (p : String) :
    List.Pairwise (fun a b => a + c.cooldownMs ≤ b)
      (timerTimes p (runSteps c g steps emptyState).2) := by
  have base : TimerLogInv c p emptyState [] := ⟨List.Pairwise.nil, rfl⟩
  obtain ⟨h1, h2⟩ := runSteps_timerInv c g p steps emptyState [] base
  simpa using h1

/-- Claim C2 counterexample: two manual `documentFile` calls for the same
eligible path 1000 ms apart both dispatch — two dispatches for one path
separated by less than `cooldownMs` (30000 in the fixture), refuting the
claim for dispatches of every source. -/
theorem c2_counterexample :
    (runSteps ctrlW oracleOk c2steps emptyState).2
      = [⟨pathA, 0, 0, DispatchSource.manual⟩, ⟨pathA, 1000, 0, DispatchSource.manual⟩]
      ∧ 1000 - 0 < ctrlW.cooldownMs := by
  decide

end Cupple
